import Mathlib

/-!
Shallow embedding of `src/examples/schema-registry.rs`.

The program is a schema registry: `SchemaRegistry` holds a map from schema
name to a compiled rule plus the raw source document; `load_schemas` builds it
from a directory of JSON files; `VersionedRegistry` indexes one registry per
version label; `HotReloadRegistry` wraps a registry behind an `RwLock` and
swaps it wholesale on `reload`.

The validation engine (the `jsonschema` crate) is an external collaborator:
following the spec, it is modelled as a capability — a compiled-rule type `R`
together with `compile : Value → Except String R` and
`check : R → Value → List Violation` — and every theorem quantifies over it.
The source's `schema.is_valid(data)` is `(check r data).isEmpty` and
`schema.iter_errors(data)` is `check r data`, which is the crate's documented
contract (`is_valid` holds iff there are no errors).

Rust `HashMap`s are modelled as association lists with key-overwriting insert
(`mapInsert`) and first-match lookup (`mapGet`); keys stay unique, so
`keys` corresponds to `HashMap::keys`.
-/

/-- JSON values, as in `serde_json::Value` (numbers as integers suffice here). -/
inductive Value where
  | null
  | bool (b : Bool)
  | num (n : Int)
  | str (s : String)
  | arr (elems : List Value)
  | obj (fields : List (String × Value))

/-- A single validation error of the collaborator, carrying its message and the
location pointer into the instance (`e.instance_path()`). -/
structure Violation where
  message : String
  location : String
deriving DecidableEq

/-- How `validate` renders one violation: `format!("{} at {}", e, e.instance_path())`. -/
def fmtViolation (v : Violation) : String :=
  v.message ++ " at " ++ v.location

/-- The `std::io::Error` values the source constructs or propagates. -/
inductive IOErr where
  | invalidData (msg : String)
  | invalidInput (msg : String)
  | other (msg : String)
deriving DecidableEq

/-- `HashMap::insert`: the new binding replaces any previous binding of the key. -/
def mapInsert {α : Type} (m : List (String × α)) (k : String) (v : α) :
    List (String × α) :=
  (k, v) :: m.filter (fun e => e.1 != k)

/-- `HashMap::get`. -/
def mapGet {α : Type} (m : List (String × α)) (k : String) : Option α :=
  (m.find? (fun e => e.1 == k)).map (fun e => e.2)

/-- `HashMap::keys`. -/
def mapKeys {α : Type} (m : List (String × α)) : List String :=
  m.map (fun e => e.1)

/-- `SchemaRegistry`: compiled rules and their raw sources, keyed by name. -/
structure SchemaRegistry (R : Type) where
  schemas : List (String × R)
  schema_sources : List (String × Value)

/-- One `.json` directory entry as `load_schemas` consumes it: the file stem as
the schema name, and the outcome of parsing the file text as JSON (`Except.error`
carries the serde error message). The read itself (`fs::read_to_string`) is
folded into the enumeration of the source. -/
structure SourceEntry where
  name : String
  parsed : Except String Value

/-- `SchemaRegistry::load_schemas`, as a fold over the already-enumerated
directory entries. A parse failure is wrapped as `InvalidData` and propagated
with `?`, aborting the remaining entries; a compile failure is printed
(collected here in `warns`) and skipped; a success inserts into both maps. -/
def load_schemas {R : Type} (compile : Value → Except String R)
    (reg : SchemaRegistry R) (warns : List String) :
    List SourceEntry → Except IOErr (SchemaRegistry R × List String)
  | [] => .ok (reg, warns)
  | e :: rest =>
    match e.parsed with
    | .error msg =>
        .error (.invalidData ("Invalid JSON in " ++ e.name ++ ": " ++ msg))
    | .ok schema =>
        match compile schema with
        | .ok compiled =>
            load_schemas compile
              ⟨mapInsert reg.schemas e.name compiled,
               mapInsert reg.schema_sources e.name schema⟩ warns rest
        | .error err =>
            load_schemas compile reg
              (warns ++ ["Failed to compile schema " ++ e.name ++ ": " ++ err]) rest

/-- `SchemaRegistry::from_directory`: enumerate the directory (`fs::read_dir`,
whose failure is the `Except.error` of the argument) and run `load_schemas`
on a fresh empty registry. -/
def SchemaRegistry.from_directory {R : Type} (compile : Value → Except String R)
    (dir : Except IOErr (List SourceEntry)) :
    Except IOErr (SchemaRegistry R × List String) :=
  match dir with
  | .error e => .error e
  | .ok entries => load_schemas compile ⟨[], []⟩ [] entries

/-- `SchemaRegistry::validate`. -/
def SchemaRegistry.validate {R : Type} (check : R → Value → List Violation)
    (reg : SchemaRegistry R) (schema_name : String) (data : Value) :
    Except (List String) Unit :=
  match mapGet reg.schemas schema_name with
  | none => .error ["Schema '" ++ schema_name ++ "' not found"]
  | some schema =>
      if ((check schema data).isEmpty : Bool) then .ok ()
      else .error ((check schema data).map fmtViolation)

/-- `SchemaRegistry::is_valid`. -/
def SchemaRegistry.is_valid {R : Type} (check : R → Value → List Violation)
    (reg : SchemaRegistry R) (schema_name : String) (data : Value) : Bool :=
  match mapGet reg.schemas schema_name with
  | none => false
  | some schema => (check schema data).isEmpty

/-- `SchemaRegistry::list_schemas`. -/
def SchemaRegistry.list_schemas {R : Type} (reg : SchemaRegistry R) : List String :=
  mapKeys reg.schemas

/-- `SchemaRegistry::get_schema_source`. -/
def SchemaRegistry.get_schema_source {R : Type} (reg : SchemaRegistry R)
    (name : String) : Option Value :=
  mapGet reg.schema_sources name

/-- `VersionedRegistry`: one `SchemaRegistry` per version label plus the
designated default label. -/
structure VersionedRegistry (R : Type) where
  versions : List (String × SchemaRegistry R)
  default_version : String

/-- `VersionedRegistry::new`. `fs` is the filesystem: what enumerating each
derived path yields. Labels whose directory load fails are skipped with a
printed warning; the default is the last label, chosen afterwards; an empty
label slice is an `InvalidInput` error. -/
def VersionedRegistry.new {R : Type} (compile : Value → Except String R)
    (fs : String → Except IOErr (List SourceEntry))
    (base_path : String) (labels : List String) :
    Except IOErr (VersionedRegistry R) :=
  let registries := labels.foldl
    (fun m version =>
      match SchemaRegistry.from_directory compile (fs (base_path ++ "/" ++ version)) with
      | .ok (reg, _) => mapInsert m version reg
      | .error _ => m) []
  match labels.getLast? with
  | none => .error (.invalidInput "At least one version required")
  | some last => .ok ⟨registries, last⟩

/-- `VersionedRegistry::validate`. -/
def VersionedRegistry.validate {R : Type} (check : R → Value → List Violation)
    (vr : VersionedRegistry R) (version : Option String)
    (schema_name : String) (data : Value) : Except (List String) Unit :=
  let v := version.getD vr.default_version
  match mapGet vr.versions v with
  | none => .error ["Version '" ++ v ++ "' not found"]
  | some reg => reg.validate check schema_name data

/-- `VersionedRegistry::list_versions`. -/
def VersionedRegistry.list_versions {R : Type} (vr : VersionedRegistry R) :
    List String :=
  mapKeys vr.versions

/-- `HotReloadRegistry`: the `RwLock`-guarded current snapshot plus the source
path it reloads from. -/
structure HotReloadRegistry (R : Type) where
  registry : SchemaRegistry R
  path : String

/-- `HotReloadRegistry::new`. -/
def HotReloadRegistry.new {R : Type} (compile : Value → Except String R)
    (fs : String → Except IOErr (List SourceEntry)) (path : String) :
    Except IOErr (HotReloadRegistry R) :=
  match SchemaRegistry.from_directory compile (fs path) with
  | .error e => .error e
  | .ok (reg, _) => .ok ⟨reg, path⟩

/-- `HotReloadRegistry::reload`: build a whole fresh registry first; only on
success take the write lock and replace the snapshot. Returns the state after
the call together with the call's result. -/
def HotReloadRegistry.reload {R : Type} (compile : Value → Except String R)
    (fs : String → Except IOErr (List SourceEntry)) (h : HotReloadRegistry R) :
    HotReloadRegistry R × Except IOErr Unit :=
  match SchemaRegistry.from_directory compile (fs h.path) with
  | .error e => (h, .error e)
  | .ok (reg, _) => ({ h with registry := reg }, .ok ())

/-- `HotReloadRegistry::validate`: acquire the read lock once and validate
against that one snapshot. -/
def HotReloadRegistry.validate {R : Type} (check : R → Value → List Violation)
    (h : HotReloadRegistry R) (schema_name : String) (data : Value) :
    Except (List String) Unit :=
  h.registry.validate check schema_name data

/-- Where, relative to a concurrent reload's single atomic snapshot swap, a
`validate` call's one read-lock acquisition lands. The `RwLock` excludes the
writer while the guard is held, so the whole call sees the snapshot resolved
at that one point. -/
inductive SwapSide where
  | beforeSwap
  | afterSwap

/-- The snapshot a concurrent `validate` call resolves, as a function of which
side of the swap its read landed on. -/
def HotReloadRegistry.snapshotSeen {R : Type} (old renewed : HotReloadRegistry R) :
    SwapSide → SchemaRegistry R
  | .beforeSwap => old.registry
  | .afterSwap => renewed.registry

/-- A `validate` call racing a reload: the call resolves its snapshot once
(at `side`) and runs entirely against it. -/
def HotReloadRegistry.validateDuring {R : Type} (check : R → Value → List Violation)
    (old renewed : HotReloadRegistry R) (side : SwapSide)
    (schema_name : String) (data : Value) : Except (List String) Unit :=
  (HotReloadRegistry.snapshotSeen old renewed side).validate check schema_name data

/-! ### A concrete validator instance

Theorems below quantify over the validator collaborator; the closed witnesses
and counterexamples instantiate it with this small required-properties
validator, shaped after the spec's example scenario (`{"user": {required:
["email"]}}`). -/

/-- A compiled rule of the concrete validator: the list of required property
names of an object. -/
structure ReqRule where
  required : List String
deriving DecidableEq

/-- The concrete validator's `check`: one violation per missing required
property (located at the instance root), or one violation when the instance
is not an object. -/
def reqCheck (r : ReqRule) (v : Value) : List Violation :=
  match v with
  | .obj fields =>
      (r.required.filter (fun k => !(fields.any (fun e => e.1 == k)))).map
        (fun k => ⟨"property " ++ k ++ " is required", ""⟩)
  | _ => [⟨"expected an object", ""⟩]

/-- All elements of the list as strings, if they all are strings. -/
def asStringList : List Value → Option (List String)
  | [] => some []
  | .str s :: rest => (asStringList rest).map (fun l => s :: l)
  | _ => none

/-- The concrete validator's `compile`: accepts exactly
`{"required": [string, ...]}` and rejects everything else. -/
def reqCompile (v : Value) : Except String ReqRule :=
  match v with
  | .obj [("required", .arr elems)] =>
      match asStringList elems with
      | some keys => .ok ⟨keys⟩
      | none => .error "required must be an array of strings"
  | _ => .error "unsupported schema form"

/-! ### Lemmas about the map model and `load_schemas` -/

theorem mapGet_insert_self {α : Type} (m : List (String × α)) (k : String) (v : α) :
    mapGet (mapInsert m k v) k = some v := by
  simp [mapGet, mapInsert, List.find?]

theorem find?_filter_out_ne {α : Type} (m : List (String × α)) (k k' : String)
    (h : k ≠ k') :
    List.find? (fun e => e.1 == k') (m.filter (fun e => e.1 != k)) =
      List.find? (fun e => e.1 == k') m := by
  induction m with
  | nil => rfl
  | cons e rest ih =>
      by_cases he : e.1 = k
      · have h1 : (e.1 != k) = false := by simp [he]
        have h2 : (e.1 == k') = false := by simp [he, h]
        simp only [List.filter_cons, h1, Bool.false_eq_true, if_false,
          List.find?_cons, h2, ih]
      · have h1 : (e.1 != k) = true := by simp [he]
        by_cases he' : e.1 = k'
        · have h2 : (e.1 == k') = true := by simp [he']
          simp only [List.filter_cons, h1, if_true, List.find?_cons, h2]
        · have h2 : (e.1 == k') = false := by simp [he']
          simp only [List.filter_cons, h1, if_true, List.find?_cons, h2, ih]

theorem mapGet_insert_ne {α : Type} (m : List (String × α)) (k k' : String) (v : α)
    (h : k ≠ k') : mapGet (mapInsert m k v) k' = mapGet m k' := by
  have hk : (k == k') = false := by simp [h]
  simp only [mapGet, mapInsert, List.find?_cons, hk]
  rw [find?_filter_out_ne m k k' h]

theorem mapGet_isSome_iff_mem_keys {α : Type} (m : List (String × α)) (k : String) :
    (mapGet m k).isSome = true ↔ k ∈ mapKeys m := by
  induction m with
  | nil => simp [mapGet, mapKeys]
  | cons e rest ih =>
      by_cases he : e.1 = k
      · simp [mapGet, mapKeys, List.find?, he]
      · have h2 : (e.1 == k) = false := by simp [he]
        simp only [mapGet, mapKeys, List.find?, h2, List.map, List.mem_cons]
        rw [mapGet, mapKeys] at ih
        simp only [ih]
        constructor
        · exact Or.inr
        · rintro (h | h)
          · exact absurd h.symm he
          · exact h


theorem mapKeys_filter_out {α : Type} (m : List (String × α)) (k : String) :
    mapKeys (m.filter (fun e => e.1 != k)) = (mapKeys m).filter (fun s => s != k) := by
  induction m with
  | nil => rfl
  | cons e rest ih =>
      by_cases he : e.1 = k
      · have h1 : (e.1 != k) = false := by simp [he]
        show mapKeys ((e :: rest).filter (fun x => x.1 != k)) =
          (e.1 :: mapKeys rest).filter (fun s => s != k)
        simp [List.filter_cons, h1, ih]
      · have h1 : (e.1 != k) = true := by simp [he]
        show mapKeys ((e :: rest).filter (fun x => x.1 != k)) =
          (e.1 :: mapKeys rest).filter (fun s => s != k)
        simp only [List.filter_cons, h1, if_true]
        show e.1 :: mapKeys (rest.filter (fun x => x.1 != k)) = _
        rw [ih]

theorem mapKeys_insert {α : Type} (m : List (String × α)) (k : String) (v : α) :
    mapKeys (mapInsert m k v) = k :: (mapKeys m).filter (fun s => s != k) := by
  show k :: mapKeys (m.filter (fun e => e.1 != k)) = _
  rw [mapKeys_filter_out]

theorem load_schemas_append {R : Type} (compile : Value → Except String R)
    (xs ys : List SourceEntry) :
    ∀ (reg : SchemaRegistry R) (warns : List String),
    load_schemas compile reg warns (xs ++ ys) =
      match load_schemas compile reg warns xs with
      | .ok (reg2, warns2) => load_schemas compile reg2 warns2 ys
      | .error e => .error e := by
  induction xs with
  | nil => intro reg warns; rfl
  | cons e rest ih =>
      intro reg warns
      cases hp : e.parsed with
      | error msg => simp [load_schemas, hp]
      | ok schema =>
          cases hc : compile schema with
          | ok compiled =>
              simp only [List.cons_append, load_schemas, hp, hc]
              exact ih _ _
          | error err =>
              simp only [List.cons_append, load_schemas, hp, hc]
              exact ih _ _

theorem load_ok_of_parses {R : Type} (compile : Value → Except String R)
    (entries : List SourceEntry) :
    ∀ (reg : SchemaRegistry R) (warns : List String),
    (∀ e ∈ entries, (e.parsed).isOk = true) →
    ∃ reg2 warns2,
      load_schemas compile reg warns entries = .ok (reg2, warns2) ∧
      warns ⊆ warns2 ∧
      (∀ e ∈ entries, ∀ v msg, e.parsed = .ok v → compile v = .error msg →
        ("Failed to compile schema " ++ e.name ++ ": " ++ msg) ∈ warns2) := by
  induction entries with
  | nil =>
      intro reg warns _
      exact ⟨reg, warns, rfl, fun x hx => hx, by simp⟩
  | cons e rest ih =>
      intro reg warns hall
      have hep : (e.parsed).isOk = true := hall e (by simp)
      have hrest : ∀ x ∈ rest, (x.parsed).isOk = true :=
        fun x hx => hall x (by simp [hx])
      cases hp : e.parsed with
      | error msg =>
          rw [hp] at hep
          simp [Except.isOk, Except.toBool] at hep
      | ok schema =>
          cases hc : compile schema with
          | ok compiled =>
              obtain ⟨reg2, warns2, heq, hsub, hmem⟩ :=
                ih ⟨mapInsert reg.schemas e.name compiled,
                    mapInsert reg.schema_sources e.name schema⟩ warns hrest
              refine ⟨reg2, warns2, ?_, hsub, ?_⟩
              · simp only [load_schemas, hp, hc]; exact heq
              · intro x hx v msg hxv hcm
                rcases List.mem_cons.mp hx with hxe | hxr
                · subst hxe
                  rw [hp] at hxv
                  injection hxv with hv
                  subst hv
                  rw [hc] at hcm
                  exact absurd hcm (by simp)
                · exact hmem x hxr v msg hxv hcm
          | error err =>
              obtain ⟨reg2, warns2, heq, hsub, hmem⟩ :=
                ih reg
                  (warns ++ ["Failed to compile schema " ++ e.name ++ ": " ++ err])
                  hrest
              refine ⟨reg2, warns2, ?_, ?_, ?_⟩
              · simp only [load_schemas, hp, hc]; exact heq
              · exact fun x hx => hsub (by simp [hx])
              · intro x hx v msg hxv hcm
                rcases List.mem_cons.mp hx with hxe | hxr
                · subst hxe
                  rw [hp] at hxv
                  injection hxv with hv
                  subst hv
                  rw [hc] at hcm
                  injection hcm with hmsg
                  subst hmsg
                  exact hsub (by simp)
                · exact hmem x hxr v msg hxv hcm

theorem load_preserves_absent {R : Type} (compile : Value → Except String R)
    (entries : List SourceEntry) (name : String) :
    ∀ (reg reg2 : SchemaRegistry R) (warns warns2 : List String),
    (∀ e ∈ entries, ∀ v, e.parsed = .ok v → e.name = name →
      (compile v).isOk = false) →
    load_schemas compile reg warns entries = .ok (reg2, warns2) →
    mapGet reg2.schemas name = mapGet reg.schemas name := by
  induction entries with
  | nil =>
      intro reg reg2 warns warns2 _ heq
      simp only [load_schemas, Except.ok.injEq, Prod.mk.injEq] at heq
      rw [heq.1]
  | cons e rest ih =>
      intro reg reg2 warns warns2 hno heq
      have hrest : ∀ x ∈ rest, ∀ v, x.parsed = .ok v → x.name = name →
          (compile v).isOk = false :=
        fun x hx => hno x (by simp [hx])
      cases hp : e.parsed with
      | error msg =>
          simp only [load_schemas, hp] at heq
          exact Except.noConfusion heq
      | ok schema =>
          cases hc : compile schema with
          | ok compiled =>
              have hne : e.name ≠ name := by
                intro hname
                have hfalse := hno e (by simp) schema hp hname
                rw [hc] at hfalse
                simp [Except.isOk, Except.toBool] at hfalse
              simp only [load_schemas, hp, hc] at heq
              have hpres := ih ⟨mapInsert reg.schemas e.name compiled,
                          mapInsert reg.schema_sources e.name schema⟩
                       reg2 warns warns2 hrest heq
              rw [hpres]
              exact mapGet_insert_ne reg.schemas e.name name compiled hne
          | error err =>
              simp only [load_schemas, hp, hc] at heq
              exact ih reg reg2 _ warns2 hrest heq

theorem load_keys_eq {R : Type} (compile : Value → Except String R)
    (entries : List SourceEntry) :
    ∀ (reg reg2 : SchemaRegistry R) (warns warns2 : List String),
    mapKeys reg.schemas = mapKeys reg.schema_sources →
    load_schemas compile reg warns entries = .ok (reg2, warns2) →
    mapKeys reg2.schemas = mapKeys reg2.schema_sources := by
  induction entries with
  | nil =>
      intro reg reg2 warns warns2 hkeys heq
      simp only [load_schemas, Except.ok.injEq, Prod.mk.injEq] at heq
      rw [← heq.1]
      exact hkeys
  | cons e rest ih =>
      intro reg reg2 warns warns2 hkeys heq
      cases hp : e.parsed with
      | error msg =>
          simp only [load_schemas, hp] at heq
          exact Except.noConfusion heq
      | ok schema =>
          cases hc : compile schema with
          | ok compiled =>
              simp only [load_schemas, hp, hc] at heq
              refine ih _ reg2 warns warns2 ?_ heq
              show mapKeys (mapInsert reg.schemas e.name compiled) =
                mapKeys (mapInsert reg.schema_sources e.name schema)
              rw [mapKeys_insert, mapKeys_insert, hkeys]
          | error err =>
              simp only [load_schemas, hp, hc] at heq
              exact ih reg reg2 _ warns2 hkeys heq

/-! ### Concrete instances for witnesses and counterexamples -/

/-- The spec's example schema document, `{"required": ["email"]}`. -/
def userSchemaVal : Value := .obj [("required", .arr [.str "email"])]

/-- The compiled form of `userSchemaVal` under the concrete validator. -/
def userRule : ReqRule := ⟨["email"]⟩

/-- A registry holding the single schema `user`, as the example scenario loads it. -/
def userReg : SchemaRegistry ReqRule :=
  ⟨[("user", userRule)], [("user", userSchemaVal)]⟩

/-- `{"email": "a@b.com", "name": "Alice"}`: passes the `user` schema. -/
def aliceVal : Value := .obj [("email", .str "a@b.com"), ("name", .str "Alice")]

/-- `{"name": "Bob"}`: fails the `user` schema (no `email`). -/
def bobVal : Value := .obj [("name", .str "Bob")]

/-- An empty registry: every name is absent. -/
def emptyReg : SchemaRegistry ReqRule := ⟨[], []⟩

/-- A filesystem on which every enumeration fails: the unreachable source. -/
def deadFs : String → Except IOErr (List SourceEntry) :=
  fun _ => .error (.other "unreachable")

/-- A hot-reload registry currently holding `userReg`. -/
def userHot : HotReloadRegistry ReqRule := ⟨userReg, "schemas/v1"⟩

/-! ### Claim theorems -/

/-- C2: for every schema name present in the registry and every value,
`validate` returns Ok iff the compiled rule's check yields no violations, and
otherwise returns Err carrying the rendered form of the full violation list
(every violation with its location pointer), not just the first. -/
theorem C2_validate_iff_check_empty {R : Type} (check : R → Value → List Violation)
    (reg : SchemaRegistry R) (name : String) (data : Value) (r : R)
    (h : mapGet reg.schemas name = some r) :
    (reg.validate check name data = .ok () ↔ check r data = []) ∧
    (check r data ≠ [] →
      reg.validate check name data = .error ((check r data).map fmtViolation)) := by
  cases hcd : check r data with
  | nil =>
      constructor
      · constructor
        · intro _; rfl
        · intro _; simp [SchemaRegistry.validate, h, hcd]
      · intro hne; exact absurd rfl hne
  | cons a l =>
      have hne : (check r data).isEmpty = false := by rw [hcd]; rfl
      constructor
      · constructor
        · intro hok
          simp [SchemaRegistry.validate, h, hne] at hok
        · intro habs
          exact absurd habs (by simp)
      · intro _
        simp [SchemaRegistry.validate, h, hne, hcd]

/-- Witness for C2 at the example scenario: validating `{"name": "Bob"}`
against the `user` schema yields the full rendered violation list. -/
theorem C2_witness :
    SchemaRegistry.validate reqCheck userReg "user" bobVal =
      .error ["property email is required at "] := by
  have hthm :=
    (C2_validate_iff_check_empty reqCheck userReg "user" bobVal userRule rfl).2
  exact hthm (by decide)

/-- C3: a `validate` call racing a `reload` resolves the `RwLock`-guarded
snapshot exactly once — before or after the single atomic swap — and its whole
outcome is the outcome against that one registry: either the fully-old or the
fully-new rule set, never a mixture. -/
theorem C3_reload_atomic_snapshot {R : Type} (check : R → Value → List Violation)
    (compile : Value → Except String R)
    (fs : String → Except IOErr (List SourceEntry))
    (h : HotReloadRegistry R) (side : SwapSide)
    (schema_name : String) (data : Value) :
    HotReloadRegistry.validateDuring check h (h.reload compile fs).1 side
        schema_name data =
      HotReloadRegistry.validate check h schema_name data ∨
    HotReloadRegistry.validateDuring check h (h.reload compile fs).1 side
        schema_name data =
      HotReloadRegistry.validate check (h.reload compile fs).1 schema_name data := by
  cases side with
  | beforeSwap => exact Or.inl rfl
  | afterSwap => exact Or.inr rfl

/-- C4: when the fresh load fails, `reload` returns the error and leaves the
installed snapshot untouched, so every subsequent `validate` call behaves
exactly as before the failed reload. -/
theorem C4_reload_failure_preserves {R : Type} (compile : Value → Except String R)
    (fs : String → Except IOErr (List SourceEntry)) (h : HotReloadRegistry R)
    (e : IOErr)
    (hfail : SchemaRegistry.from_directory compile (fs h.path) = .error e) :
    h.reload compile fs = (h, .error e) ∧
    (∀ (check : R → Value → List Violation) (schema_name : String) (data : Value),
      ((h.reload compile fs).1).validate check schema_name data =
        h.validate check schema_name data) := by
  have h1 : h.reload compile fs = (h, .error e) := by
    simp [HotReloadRegistry.reload, hfail]
  exact ⟨h1, fun check n d => by rw [h1]⟩

/-- Witness for C4: against the unreachable source, `reload` reports the hard
error, and `validate` still answers from the pre-existing snapshot. -/
theorem C4_witness :
    userHot.reload reqCompile deadFs = (userHot, .error (.other "unreachable")) ∧
    ((userHot.reload reqCompile deadFs).1).validate reqCheck "user" aliceVal =
      userHot.validate reqCheck "user" aliceVal := by
  have hthm :=
    C4_reload_failure_preserves reqCompile deadFs userHot (.other "unreachable") rfl
  exact ⟨hthm.1, hthm.2 reqCheck "user" aliceVal⟩

/-- A collaborator `check` whose single violation renders — via
`fmtViolation`'s `"… at …"` format — to exactly the string the not-found error
for the schema name `"x at y"` uses. -/
def collidingCheck : ReqRule → Value → List Violation :=
  fun _ _ => [⟨"Schema 'x", "y' not found"⟩]

/-- A registry with one rule installed under the name `z`. -/
def presentReg : SchemaRegistry ReqRule := ⟨[("z", ⟨[]⟩)], [("z", .null)]⟩

/-- C5, counterexample: the claim says the not-found error is distinguishable
from a validation failure, but both travel in the same `Err(Vec<String>)`
channel of `ValidationResult`, with no tag: validating the absent name
`"x at y"` produces a result equal — as a value — to a genuine validation
failure of the present schema `z`. The boundary is only the message text, and
it collides. -/
theorem C5_counterexample :
    mapGet emptyReg.schemas "x at y" = none ∧
    mapGet presentReg.schemas "z" = some ⟨[]⟩ ∧
    collidingCheck ⟨[]⟩ Value.null ≠ [] ∧
    SchemaRegistry.validate collidingCheck emptyReg "x at y" Value.null =
      SchemaRegistry.validate collidingCheck presentReg "z" Value.null := by
  refine ⟨rfl, rfl, by decide, ?_⟩
  rfl

/-- C5, amended: `validate` on a name absent from the rule set always fails,
regardless of the value, with a single-message error naming the requested
schema — but that error is a plain `Vec<String>` like a validation failure,
distinguishable only by its message text. -/
theorem C5_absent_name_error {R : Type} (check : R → Value → List Violation)
    (reg : SchemaRegistry R) (name : String) (data : Value)
    (h : mapGet reg.schemas name = none) :
    reg.validate check name data =
      .error ["Schema '" ++ name ++ "' not found"] := by
  simp [SchemaRegistry.validate, h]

/-- Witness for C5: the empty registry rejects the name `user` for an
arbitrary value with the not-found message. -/
theorem C5_witness :
    SchemaRegistry.validate reqCheck emptyReg "user" aliceVal =
      .error ["Schema 'user' not found"] :=
  C5_absent_name_error reqCheck emptyReg "user" aliceVal rfl

/-- C7: the default version of `VersionedRegistry::new` is the last label of
the sequence — chosen after (and independently of) the per-label load
attempts, successful or not, since `fs` is arbitrary here — and construction
fails with the `InvalidInput` hard error exactly when the label sequence is
empty. -/
theorem C7_default_is_last_label {R : Type} (compile : Value → Except String R)
    (fs : String → Except IOErr (List SourceEntry)) (base_path : String)
    (labels : List String) :
    (labels = [] →
      VersionedRegistry.new compile fs base_path labels =
        .error (.invalidInput "At least one version required")) ∧
    (∀ l, labels.getLast? = some l →
      ∃ vr, VersionedRegistry.new compile fs base_path labels = .ok vr ∧
        vr.default_version = l) := by
  constructor
  · intro he; subst he; rfl
  · intro l hl
    unfold VersionedRegistry.new
    rw [hl]
    exact ⟨_, rfl, rfl⟩

/-- Witness for C7: with labels `["v1", "v2"]` — on a filesystem where every
load fails — construction still succeeds and the default version is `v2`. -/
theorem C7_witness :
    ∃ vr, VersionedRegistry.new reqCompile deadFs "schemas" ["v1", "v2"] = .ok vr ∧
      vr.default_version = "v2" :=
  (C7_default_is_last_label reqCompile deadFs "schemas" ["v1", "v2"]).2 "v2" rfl

/-- C8: `is_valid` is true exactly when the name is present and the value
passes its rule; it is false both for an absent name and for a failing value,
and the boolean result does not separate those two cases. -/
theorem C8_is_valid_characterization {R : Type} (check : R → Value → List Violation)
    (reg : SchemaRegistry R) (name : String) (data : Value) :
    (reg.is_valid check name data = true ↔
      ∃ r, mapGet reg.schemas name = some r ∧ check r data = []) ∧
    (mapGet reg.schemas name = none → reg.is_valid check name data = false) ∧
    (∀ r, mapGet reg.schemas name = some r → check r data ≠ [] →
      reg.is_valid check name data = false) := by
  refine ⟨?_, ?_, ?_⟩
  · cases hg : mapGet reg.schemas name with
    | none =>
        simp only [SchemaRegistry.is_valid, hg]
        constructor
        · intro hfalse; exact absurd hfalse (by simp)
        · rintro ⟨r, hr, _⟩; exact absurd hr (by simp)
    | some r =>
        simp only [SchemaRegistry.is_valid, hg]
        constructor
        · intro hempty
          exact ⟨r, rfl, by simpa [List.isEmpty_iff] using hempty⟩
        · rintro ⟨r2, hr2, hck⟩
          injection hr2 with hr2
          subst hr2
          simp [List.isEmpty_iff, hck]
  · intro hg
    simp [SchemaRegistry.is_valid, hg]
  · intro r hg hck
    simp only [SchemaRegistry.is_valid, hg]
    cases hcd : check r data with
    | nil => exact absurd hcd hck
    | cons a l => rfl

/-- Witness for C8: the absent name `missing` and the failing value for
`user` both yield `false`, and the passing value yields `true`. -/
theorem C8_witness :
    SchemaRegistry.is_valid reqCheck userReg "missing" aliceVal = false ∧
    SchemaRegistry.is_valid reqCheck userReg "user" bobVal = false ∧
    SchemaRegistry.is_valid reqCheck userReg "user" aliceVal = true := by
  refine ⟨?_, ?_, ?_⟩
  · exact (C8_is_valid_characterization reqCheck userReg "missing" aliceVal).2.1 rfl
  · exact (C8_is_valid_characterization reqCheck userReg "user" bobVal).2.2
      userRule rfl (by decide)
  · exact (C8_is_valid_characterization reqCheck userReg "user" aliceVal).1.mpr
      ⟨userRule, rfl, by decide⟩

theorem new_eq_of_getLast {R : Type} (compile : Value → Except String R)
    (fs : String → Except IOErr (List SourceEntry)) (base_path : String)
    (labels : List String) (l : String) (hl : labels.getLast? = some l) :
    VersionedRegistry.new compile fs base_path labels =
      .ok ⟨labels.foldl
        (fun m version =>
          match SchemaRegistry.from_directory compile (fs (base_path ++ "/" ++ version)) with
          | .ok (reg, _) => mapInsert m version reg
          | .error _ => m) [], l⟩ := by
  unfold VersionedRegistry.new
  rw [hl]

theorem foldl_insert_get_absent {R : Type} (compile : Value → Except String R)
    (fs : String → Except IOErr (List SourceEntry)) (base_path : String) (l : String)
    (hfail : (SchemaRegistry.from_directory compile (fs (base_path ++ "/" ++ l)) :
      Except IOErr (SchemaRegistry R × List String)).isOk = false) :
    ∀ (labels : List String) (m : List (String × SchemaRegistry R)),
    mapGet m l = none →
    mapGet (labels.foldl
      (fun m version =>
        match SchemaRegistry.from_directory compile (fs (base_path ++ "/" ++ version)) with
        | .ok (reg, _) => mapInsert m version reg
        | .error _ => m) m) l = none := by
  intro labels
  induction labels with
  | nil => intro m hm; exact hm
  | cons v rest ih =>
      intro m hm
      rw [List.foldl_cons]
      apply ih
      cases hd : SchemaRegistry.from_directory compile (fs (base_path ++ "/" ++ v)) with
      | error e =>
          simp only [hd]
          exact hm
      | ok p =>
          obtain ⟨reg, warns⟩ := p
          simp only [hd]
          by_cases hvl : v = l
          · subst hvl
            rw [hd] at hfail
            simp [Except.isOk, Except.toBool] at hfail
          · rw [mapGet_insert_ne m v l reg hvl]
            exact hm

theorem validate_default_absent {R : Type} (check : R → Value → List Violation)
    (vr : VersionedRegistry R)
    (h : mapGet vr.versions vr.default_version = none)
    (schema_name : String) (data : Value) :
    vr.validate check none schema_name data =
      .error ["Version '" ++ vr.default_version ++ "' not found"] := by
  simp [VersionedRegistry.validate, h]

/-- C9: when the labels are non-empty but the load of the last label — the
designated default — fails hard, construction still succeeds, the default
label is recorded without a registry entry, and every `validate` call with no
explicit version fails with the Version-not-found error instead of falling
back to an available version. -/
theorem C9_default_load_failure {R : Type} (compile : Value → Except String R)
    (fs : String → Except IOErr (List SourceEntry)) (base_path : String)
    (labels : List String) (l : String)
    (hlast : labels.getLast? = some l)
    (hfail : (SchemaRegistry.from_directory compile (fs (base_path ++ "/" ++ l)) :
      Except IOErr (SchemaRegistry R × List String)).isOk = false) :
    ∃ vr, VersionedRegistry.new compile fs base_path labels = .ok vr ∧
      vr.default_version = l ∧
      mapGet vr.versions l = none ∧
      (∀ (check : R → Value → List Violation) (schema_name : String) (data : Value),
        VersionedRegistry.validate check vr none schema_name data =
          .error ["Version '" ++ l ++ "' not found"]) := by
  have hnew := new_eq_of_getLast compile fs base_path labels l hlast
  have habs := foldl_insert_get_absent compile fs base_path l hfail labels [] rfl
  exact ⟨_, hnew, rfl, habs,
    fun check schema_name data => validate_default_absent check _ habs schema_name data⟩

/-- Witness for C9: one label `v2` on the unreachable filesystem — the index
constructs, designates `v2`, and default-version validation reports
Version-not-found. -/
theorem C9_witness :
    ∃ vr, VersionedRegistry.new reqCompile deadFs "schemas" ["v2"] = .ok vr ∧
      vr.default_version = "v2" ∧
      mapGet vr.versions "v2" = none ∧
      (∀ (check : ReqRule → Value → List Violation) (schema_name : String) (data : Value),
        VersionedRegistry.validate check vr none schema_name data =
          .error ["Version '" ++ "v2" ++ "' not found"]) :=
  C9_default_load_failure reqCompile deadFs "schemas" ["v2"] "v2" rfl rfl

/-- The directory contents for the C1 counterexample: one entry whose raw text
is not parseable JSON, followed by one perfectly good entry. -/
def C1entries : List SourceEntry :=
  [⟨"bad", .error "expected value"⟩, ⟨"good", .ok userSchemaVal⟩]

/-- C1, counterexample: the claim says one bad entry only produces a warning
and never aborts the load, the load failing only when the source cannot be
enumerated. Here the source enumerates fine (`Except.ok C1entries`) and only
the first entry is bad — its raw text does not parse — yet the load as a whole
returns the hard `InvalidData` error and the good entry is lost: the `?` after
`serde_json::from_str` propagates instead of warning. -/
theorem C1_counterexample :
    SchemaRegistry.from_directory reqCompile (Except.ok C1entries) =
      Except.error (.invalidData "Invalid JSON in bad: expected value") := rfl

/-- C1, amended: per-entry tolerance holds only for compiler rejections: when
every entry's raw text parses, the load succeeds, records a warning naming
each entry the compiler rejects, and leaves every name with no successfully
compiled occurrence out of the rule set; enumeration failure is a hard error;
but an entry whose raw text is not parseable JSON (reached after a parsing
prefix) aborts the whole load with a hard `InvalidData` error. -/
theorem C1_partial_tolerance_compile_only {R : Type}
    (compile : Value → Except String R) :
    (∀ entries : List SourceEntry, (∀ e ∈ entries, (e.parsed).isOk = true) →
      ∃ reg warns,
        SchemaRegistry.from_directory compile (.ok entries) = .ok (reg, warns) ∧
        (∀ e ∈ entries, ∀ v msg, e.parsed = .ok v → compile v = .error msg →
          ("Failed to compile schema " ++ e.name ++ ": " ++ msg) ∈ warns) ∧
        (∀ name, (∀ e ∈ entries, ∀ v, e.parsed = .ok v → e.name = name →
            (compile v).isOk = false) →
          mapGet reg.schemas name = none)) ∧
    (∀ err : IOErr,
      SchemaRegistry.from_directory compile (.error err) =
        (.error err : Except IOErr (SchemaRegistry R × List String))) ∧
    (∀ (pre : List SourceEntry) (name msg : String) (rest : List SourceEntry),
      (∀ e ∈ pre, (e.parsed).isOk = true) →
      SchemaRegistry.from_directory compile
          (.ok (pre ++ ⟨name, .error msg⟩ :: rest)) =
        .error (.invalidData ("Invalid JSON in " ++ name ++ ": " ++ msg))) := by
  refine ⟨?_, fun err => rfl, ?_⟩
  · intro entries hall
    obtain ⟨reg2, warns2, heq, _, hmem⟩ :=
      load_ok_of_parses compile entries ⟨[], []⟩ [] hall
    refine ⟨reg2, warns2, heq, hmem, ?_⟩
    intro name hno
    have hpres := load_preserves_absent compile entries name ⟨[], []⟩ reg2 [] warns2 hno heq
    rw [hpres]
    rfl
  · intro pre name msg rest hpre
    obtain ⟨reg1, w1, heq1, _, _⟩ := load_ok_of_parses compile pre ⟨[], []⟩ [] hpre
    show load_schemas compile ⟨[], []⟩ [] (pre ++ ⟨name, .error msg⟩ :: rest) = _
    rw [load_schemas_append compile pre (⟨name, .error msg⟩ :: rest), heq1]
    rfl

/-- Witness for C1 (amended): a directory with one compiler-rejected entry and
one good one loads successfully, with the reject warned about and excluded. -/
theorem C1_witness :
    ∃ reg warns,
      SchemaRegistry.from_directory reqCompile
          (.ok [⟨"broken", .ok (Value.str "oops")⟩, ⟨"good", .ok userSchemaVal⟩]) =
        .ok (reg, warns) ∧
      (∀ e ∈ [(⟨"broken", .ok (Value.str "oops")⟩ : SourceEntry),
              ⟨"good", .ok userSchemaVal⟩], ∀ v msg,
        e.parsed = .ok v → reqCompile v = .error msg →
        ("Failed to compile schema " ++ e.name ++ ": " ++ msg) ∈ warns) ∧
      (∀ name, (∀ e ∈ [(⟨"broken", .ok (Value.str "oops")⟩ : SourceEntry),
              ⟨"good", .ok userSchemaVal⟩], ∀ v,
          e.parsed = .ok v → e.name = name → (reqCompile v).isOk = false) →
        mapGet reg.schemas name = none) := by
  refine (C1_partial_tolerance_compile_only reqCompile).1
    [⟨"broken", .ok (Value.str "oops")⟩, ⟨"good", .ok userSchemaVal⟩] ?_
  intro e he
  rcases List.mem_cons.mp he with h1 | h2
  · subst h1; rfl
  · rcases List.mem_cons.mp h2 with h1 | h3
    · subst h1; rfl
    · exact absurd h3 (List.not_mem_nil e)

/-- The directory contents for the C6 counterexample: the name `a` occurs
twice; the later occurrence parses but its definition is rejected by the
compiler. -/
def C6entries : List SourceEntry :=
  [⟨"a", .ok userSchemaVal⟩, ⟨"a", .ok (Value.str "oops")⟩]

/-- C6, counterexample: the claim says the stored entry under a duplicated
name equals the compile result of the last occurrence in enumeration order.
Here the last occurrence of `a` does not compile at all — its compile result
is an error — and the rule set keeps the compile result of the FIRST
occurrence instead (with the raw source of the first occurrence too). -/
theorem C6_counterexample :
    SchemaRegistry.from_directory reqCompile (Except.ok C6entries) =
      Except.ok (⟨[("a", userRule)], [("a", userSchemaVal)]⟩,
        ["Failed to compile schema a: unsupported schema form"]) ∧
    reqCompile (Value.str "oops") = Except.error "unsupported schema form" :=
  ⟨rfl, rfl⟩

/-- C6, amended: within one load the stored compiled entry under a duplicated
name equals the compile result of the last occurrence of that name whose
definition the compiler accepts; a later duplicate whose compilation fails is
skipped and does not displace the earlier entry. -/
theorem C6_last_successful_write_wins {R : Type} (compile : Value → Except String R)
    (pre post : List SourceEntry) (e : SourceEntry) (name : String) (v : Value)
    (r : R) (reg : SchemaRegistry R) (warns : List String)
    (hname : e.name = name) (hv : e.parsed = .ok v) (hc : compile v = .ok r)
    (hpost : ∀ x ∈ post, ∀ w, x.parsed = .ok w → x.name = name →
      (compile w).isOk = false)
    (hload : SchemaRegistry.from_directory compile (.ok (pre ++ e :: post)) =
      .ok (reg, warns)) :
    mapGet reg.schemas name = some r := by
  have hload' : load_schemas compile ⟨[], []⟩ [] (pre ++ e :: post) =
      .ok (reg, warns) := hload
  rw [load_schemas_append compile pre (e :: post)] at hload'
  cases hpre : load_schemas compile ⟨[], []⟩ [] pre with
  | error err =>
      rw [hpre] at hload'
      exact Except.noConfusion hload'
  | ok p =>
      obtain ⟨reg1, w1⟩ := p
      rw [hpre] at hload'
      have hload2 : load_schemas compile reg1 w1 (e :: post) = .ok (reg, warns) :=
        hload'
      rw [show load_schemas compile reg1 w1 (e :: post) =
            load_schemas compile ⟨mapInsert reg1.schemas e.name r,
              mapInsert reg1.schema_sources e.name v⟩ w1 post from by
        simp only [load_schemas, hv, hc]] at hload2
      have hpres := load_preserves_absent compile post name
        ⟨mapInsert reg1.schemas e.name r, mapInsert reg1.schema_sources e.name v⟩
        reg w1 warns hpost hload2
      rw [hpres]
      show mapGet (mapInsert reg1.schemas e.name r) name = some r
      rw [hname]
      exact mapGet_insert_self reg1.schemas name r

/-- Witness for C6 (amended), at the `C6entries`-shaped source: the first
occurrence of `a` is the last one that compiles, and it is what the rule set
stores. -/
theorem C6_witness :
    mapGet (⟨[("a", userRule)], [("a", userSchemaVal)]⟩ :
        SchemaRegistry ReqRule).schemas "a" = some userRule := by
  refine C6_last_successful_write_wins reqCompile [] [⟨"a", .ok (Value.str "oops")⟩]
    ⟨"a", .ok userSchemaVal⟩ "a" userSchemaVal userRule
    ⟨[("a", userRule)], [("a", userSchemaVal)]⟩
    ["Failed to compile schema a: unsupported schema form"]
    rfl rfl rfl ?_ rfl
  intro x hx w hw _hn
  rcases List.mem_cons.mp hx with h1 | h2
  · subst h1
    injection hw with hw
    subst hw
    rfl
  · exact absurd h2 (List.not_mem_nil x)

/-- C10: a registry produced by a load keeps its compiled-rule map and its
schema-source map over exactly the same key set — the two maps are only ever
inserted into together, on successful compilation — so `get_schema_source`
answers iff the name appears in `list_schemas`. -/
theorem C10_source_iff_listed {R : Type} (compile : Value → Except String R)
    (entries : List SourceEntry) (reg : SchemaRegistry R) (warns : List String)
    (hload : SchemaRegistry.from_directory compile (.ok entries) = .ok (reg, warns))
    (name : String) :
    (reg.get_schema_source name).isSome = true ↔ name ∈ reg.list_schemas := by
  have hkeys := load_keys_eq compile entries ⟨[], []⟩ reg [] warns rfl hload
  simp only [SchemaRegistry.get_schema_source, SchemaRegistry.list_schemas,
    mapGet_isSome_iff_mem_keys, hkeys]

/-- Witness for C10: the registry loaded from the single `user` entry answers
`get_schema_source "user"` and lists `user`. -/
theorem C10_witness :
    (userReg.get_schema_source "user").isSome = true ↔
      "user" ∈ userReg.list_schemas :=
  C10_source_iff_listed reqCompile [⟨"user", .ok userSchemaVal⟩] userReg [] rfl "user"
